import Mathlib

/-!
Verification of the quiz scheduling and question-acquisition engine of the
tg-poster repository.  The definitions below are a shallow embedding of the
TypeScript sources `src/quiz/services/quiz-data.ts`, `quiz-scheduler.ts`,
`quiz-bot.ts` and the quality-gate part of the quiz AI module.  External,
asynchronous collaborators (the Astra document store, the quality oracle,
`Math.random`, the Telegram gateway, wall-clock time) are passed in as
explicit environment values, and every JavaScript array routine is
translated to its exact counterpart on Lean lists.
-/

namespace TgPoster

/-- Difficulty label of a question (`difficultyLevel` in the Astra schema). -/
inductive Difficulty where
  | easy
  | medium
  | hard
deriving DecidableEq, Repr

/-- The fields of an Astra question document that the quiz engine reads.
JavaScript truthiness of `dedupeKey` (absent or empty string ⇒ falsy) is
kept by modelling the field as `Option String` and testing emptiness. -/
structure AstraQuestion where
  _id : String
  hindiText : String
  englishText : String
  optionsHindi : List String
  optionsEnglish : List String
  correctAnswer : String
  explanationHindi : String
  explanationEnglish : String
  difficultyLevel : Option Difficulty
  dedupeKey : Option String
  subjectId : String
  chapterId : String
  verified : Bool
deriving DecidableEq, Repr, Inhabited

/-- Subject document (only the fields the scheduler reads). -/
structure Subject where
  _id : String
  name : String
deriving DecidableEq, Repr, Inhabited

/-- Chapter document (only the fields the scheduler reads). -/
structure Chapter where
  _id : String
  name : String
  subjectId : String
deriving DecidableEq, Repr, Inhabited

/-- Status union of `QuizSchedule.status`. -/
inductive ScheduleStatus where
  | scheduled
  | in_progress
  | completed
  | cancelled
deriving DecidableEq, Repr

/-- The two fixed daily time slots, TS type `'08:00' | '20:00'`. -/
inductive QuizTime where
  | h0800
  | h2000
deriving DecidableEq, Repr

/-- `QuizSchedule` record from `src/quiz/types.ts`. -/
structure QuizSchedule where
  id : String
  date : String
  time : QuizTime
  subjectIds : List String
  chapterIds : List String
  subjectNames : List String
  chapterNames : List String
  questionCount : Nat
  title : String
  status : ScheduleStatus
  createdAt : String
  completedAt : Option String
deriving DecidableEq, Repr

/-- `UsedQuestionRecord`; `usedAt` is the parsed timestamp of the stored ISO
string, in milliseconds, as compared by `new Date(record.usedAt)`. -/
structure UsedQuestionRecord where
  questionId : String
  scheduleId : String
  usedAt : Int
deriving DecidableEq, Repr

/-- `QualityCheckInput`: the minimal projection sent to the oracle. -/
structure QualityCheckInput where
  id : String
  text : String
  options : List String
deriving DecidableEq, Repr

/-- `QualityCheckResult`: one verdict of the quality oracle. -/
structure QualityCheckResult where
  id : String
  approved : Bool
  reason : Option String
deriving DecidableEq, Repr

/-- The difficulty mix from `quizConfig.selection.difficultyRatio`;
the decimal literals 0.3 / 0.5 / 0.2 are modelled as exact rationals. -/
structure DifficultyMix where
  EASY : ℚ
  MEDIUM : ℚ
  HARD : ℚ

/-- Default mix `{ EASY: 0.3, MEDIUM: 0.5, HARD: 0.2 }`. -/
def defaultMix : DifficultyMix := { EASY := 3/10, MEDIUM := 1/2, HARD := 1/5 }

/-! ## quiz-data.ts -/

/-- Millisecond length of one day, used for the exclusion-window cutoff
(`cutoffDate.setDate(cutoffDate.getDate() - days)` under a fixed-offset,
DST-free clock such as the IST arithmetic the repository uses). -/
def dayMs : Int := 86400000

/-- `getRecentlyUsedQuestionIds`: identifiers of records whose `usedAt`
lies strictly after `now - days` days.  The JS `Set` is kept as the list of
its insertions; only membership is ever consulted. -/
def getRecentlyUsedQuestionIds (records : List UsedQuestionRecord)
    (nowMs : Int) (days : Nat) : List String :=
  ((records.filter (fun r => decide (nowMs - (days : Int) * dayMs < r.usedAt))).map
    (fun r => r.questionId))

/-- JS `array.slice(0, e)` where `e` may be negative (a negative end counts
from the end of the array, clamped at zero). -/
def jsSliceTo (l : List α) (e : Int) : List α :=
  if 0 ≤ e then l.take e.toNat else l.take (l.length - e.natAbs)

/-- Truthiness test of a `dedupeKey` field: present and non-empty. -/
def keyTruthy : Option String → Bool
  | none => false
  | some k => !k.isEmpty

/-- The dedupe filter of `selectQuestions` (a `filter` over a mutable
`seenDedupeKeys` set, threaded here as the `seen` accumulator): a question
with a truthy key is dropped when its key was already seen, kept and its
key recorded otherwise; questions without a truthy key always pass. -/
def dedupeByKey : List AstraQuestion → List String → List AstraQuestion
  | [], _ => []
  | q :: rest, seen =>
    match q.dedupeKey with
    | none => q :: dedupeByKey rest seen
    | some k =>
      if k.isEmpty then q :: dedupeByKey rest seen
      else if seen.contains k then dedupeByKey rest seen
      else q :: dedupeByKey rest (k :: seen)

/-- `questions.filter(q => q.difficultyLevel === 'EASY')`. -/
def easyOf (l : List AstraQuestion) : List AstraQuestion :=
  l.filter (fun q => decide (q.difficultyLevel = some .easy))

/-- `questions.filter(q => q.difficultyLevel === 'MEDIUM')`. -/
def mediumOf (l : List AstraQuestion) : List AstraQuestion :=
  l.filter (fun q => decide (q.difficultyLevel = some .medium))

/-- `questions.filter(q => q.difficultyLevel === 'HARD')`. -/
def hardOf (l : List AstraQuestion) : List AstraQuestion :=
  l.filter (fun q => decide (q.difficultyLevel = some .hard))

/-- `questions.filter(q => !q.difficultyLevel)`. -/
def unknownOf (l : List AstraQuestion) : List AstraQuestion :=
  l.filter (fun q => decide (q.difficultyLevel = none))

/-- `selectByDifficultyRatio`.  `shuffle` stands for `shuffleArray`, the
Fisher–Yates shuffle driven by `Math.random`; theorems quantify over every
`shuffle` that permutes its input, which Fisher–Yates always does.
`Math.round` on the (non-negative) products is `round` on ℚ, and the two
`slice(0, n)` calls whose bound is a computed difference use JS slice
semantics via `jsSliceTo`. -/
def selectByDifficultyRatio (shuffle : List AstraQuestion → List AstraQuestion)
    (questions : List AstraQuestion) (count : Nat) (ratio : DifficultyMix) :
    List AstraQuestion :=
  let easy := easyOf questions
  let medium := mediumOf questions
  let hard := hardOf questions
  let unknown := unknownOf questions
  let easyCount : Int := round ((count : ℚ) * ratio.EASY)
  let mediumCount : Int := round ((count : ℚ) * ratio.MEDIUM)
  let hardCount : Int := (count : Int) - easyCount - mediumCount
  let selected := jsSliceTo (shuffle easy) easyCount
    ++ jsSliceTo (shuffle medium) mediumCount
    ++ jsSliceTo (shuffle hard) hardCount
  let remaining : Int := (count : Int) - (selected.length : Int)
  if 0 < remaining then
    let used := selected.map (fun q => q._id)
    let pool := (unknown ++ easy ++ medium ++ hard).filter
      (fun q => !(decide (q._id ∈ used)))
    shuffle (selected ++ jsSliceTo (shuffle pool) remaining)
  else
    shuffle selected

/-- Environment of one `selectQuestions` call: the shuffle's random
permutation, the Astra query result (`fetched`), the persisted
used-question log and the wall clock at the call. -/
structure SelectEnv where
  shuffle : List AstraQuestion → List AstraQuestion
  fetched : List AstraQuestion
  records : List UsedQuestionRecord
  nowMs : Int

/-- Questions surviving the recently-used exclusion filter. -/
def afterRecencyFilter (env : SelectEnv) (excludeRecentDays : Nat) :
    List AstraQuestion :=
  let recentlyUsed := getRecentlyUsedQuestionIds env.records env.nowMs excludeRecentDays
  env.fetched.filter (fun q => !(decide (q._id ∈ recentlyUsed)))

/-- The pool after the recency filter and the dedupe filter. -/
def filteredPool (env : SelectEnv) (excludeRecentDays : Nat) :
    List AstraQuestion :=
  dedupeByKey (afterRecencyFilter env excludeRecentDays) []

/-- `selectQuestions` (success path; a repository error is caught and
returns `[]`).  The defaulted option values at the single call site are
`difficultyRatio = defaultMix` and `excludeRecentDays = 7`. -/
def selectQuestions (env : SelectEnv) (count : Nat) (ratio : DifficultyMix)
    (excludeRecentDays : Nat) : List AstraQuestion :=
  let questions := filteredPool env excludeRecentDays
  if questions.length < count then env.shuffle questions
  else selectByDifficultyRatio env.shuffle questions count ratio

/-! ## quiz-ai.ts quality gate -/

/-- Outcome of the oracle round trip as `checkQuestionQuality` observes it:
`failed` is a null return of `callMistral`, `unparseable` is a non-null
response on which `parseJsonResponse` falls back to its default `[]`, and
`parsed rs` is a successfully extracted verdict array. -/
inductive OracleResponse where
  | failed
  | unparseable
  | parsed (results : List QualityCheckResult)
deriving DecidableEq, Repr

/-- The verdict list the gate works with (empty for a failed call, the
`parseJsonResponse` default `[]` for an unparseable one). -/
def oracleVerdicts : OracleResponse → List QualityCheckResult
  | .failed => []
  | .unparseable => []
  | .parsed rs => rs

/-- Lookup in `new Map(results.map(r => [r.id, r]))`: the *last* entry for
a key wins, as in the JS `Map` constructor. -/
def resultMapGet (rs : List QualityCheckResult) (id : String) :
    Option QualityCheckResult :=
  rs.foldl (fun acc r => if r.id = id then some r else acc) none

/-- `checkQuestionQuality`: empty input short-circuits; a failed oracle
call approves everything; otherwise each input id gets the mapped verdict
or the fail-open default `{ id, approved: true }`. -/
def checkQuestionQuality (questions : List QualityCheckInput)
    (resp : OracleResponse) : List QualityCheckResult :=
  if questions.isEmpty then []
  else
    match resp with
    | .failed => questions.map (fun q => { id := q.id, approved := true, reason := none })
    | resp =>
      let results := oracleVerdicts resp
      questions.map (fun q =>
        match resultMapGet results q.id with
        | some r => r
        | none => { id := q.id, approved := true, reason := none })

/-! ## quiz-bot.ts -/

/-- JS `toUpperCase` on a character sequence (ASCII case mapping, which is
all the answer designators use). -/
def jsToUpper (l : List Char) : List Char := l.map Char.toUpper

/-- JS `toLowerCase` on a character sequence (ASCII case mapping). -/
def jsToLower (l : List Char) : List Char := l.map Char.toLower

/-- JS `trim`: strip whitespace from both ends. -/
def jsTrim (l : List Char) : List Char :=
  ((l.dropWhile Char.isWhitespace).reverse.dropWhile Char.isWhitespace).reverse

/-- JS `haystack.includes(needle)`: substring containment (true for the
empty needle). -/
def strIncludes (hay pat : List Char) : Bool :=
  (List.range (hay.length + 1)).any (fun i => pat.isPrefixOf (hay.drop i))

/-- JS `array.findIndex` as an option (the source compares with `>= 0`). -/
def jsFindIndex (p : α → Bool) : List α → Option Nat
  | [] => none
  | a :: l => if p a then some 0 else (jsFindIndex p l).map (fun i => i + 1)

/-- The `answer` local of `getCorrectOptionIndex`:
`question.correctAnswer.toUpperCase().trim()`. -/
def answerChars (question : AstraQuestion) : List Char :=
  jsTrim (jsToUpper question.correctAnswer.toList)

/-- The `index` local of `getCorrectOptionIndex`: `charCodeAt(0) - 65`. -/
def letterIndex (question : AstraQuestion) : Int :=
  (((answerChars question).headD 'A').toNat : Int) - 65

/-- The predicate of the option scan of `getCorrectOptionIndex`:
`opt.toLowerCase().includes(answer.toLowerCase())`. -/
def optionMatches (question : AstraQuestion) (opt : String) : Bool :=
  strIncludes (jsToLower opt.toList) (jsToLower (answerChars question))

/-- `getCorrectOptionIndex`: a single-letter answer is mapped through its
char code (`charCodeAt(0) - 65`) when that lands inside the option list,
otherwise the first option containing the answer case-insensitively is
used, otherwise 0. -/
def getCorrectOptionIndex (question : AstraQuestion) : Nat :=
  let singleLetter : Option Nat :=
    if (answerChars question).length = 1 then
      if 0 ≤ letterIndex question
          ∧ letterIndex question < (question.optionsEnglish.length : Int) then
        some (letterIndex question).toNat
      else none
    else none
  match singleLetter with
  | some i => i
  | none =>
    match jsFindIndex (fun opt => optionMatches question opt)
        question.optionsEnglish with
    | some i => i
    | none => 0

/-! ## quiz-scheduler.ts -/

/-- `getScheduleFor`: first stored schedule matching date, slot and status
`'scheduled'`. -/
def getScheduleFor (schedules : List QuizSchedule) (date : String)
    (time : QuizTime) : Option QuizSchedule :=
  schedules.find? (fun s =>
    decide (s.date = date ∧ s.time = time ∧ s.status = .scheduled))

/-- `updateScheduleStatus`: overwrite the status of the first schedule with
the given id (stamping `completedAt` when the new status is `completed`);
no transition validation is performed.  `now` is the ISO timestamp of
`new Date()`. -/
def updateScheduleStatus (now : String) (id : String) (st : ScheduleStatus) :
    List QuizSchedule → List QuizSchedule
  | [] => []
  | s :: rest =>
    if s.id = id then
      { s with
        status := st
        completedAt := if st = .completed then some now else s.completedAt } :: rest
    else s :: updateScheduleStatus now id st rest

/-- Environment of one `executeScheduledQuiz` run: per-attempt results of
the awaited `selectQuestions` and `checkQuestionQuality` calls (indexed by
the attempt number, since later calls see a world mutated by earlier ones),
the success flag reported by `runQuiz`, and the wall clock. -/
structure ExecEnv where
  select : Nat → Nat → List AstraQuestion
  quality : Nat → List QualityCheckInput → List QualityCheckResult
  runQuizSuccess : List AstraQuestion → Bool
  now : String

/-- State of the acquisition while-loop of `executeScheduledQuiz`. -/
structure AcquisitionState where
  approved : List AstraQuestion
  drawnIds : List String
  attempt : Nat
deriving DecidableEq, Repr

/-- The acquisition while-loop; `fuel` is `maxAttempts - attempt`, so the
guard `attempt < maxAttempts` is the non-zero fuel pattern.  `fetchCount`
is `Math.ceil(needed * 1.5) = (3·needed+1)/2`, and an attempt in which
every selected question was already drawn breaks out of the loop. -/
def acquisitionLoop (env : ExecEnv) (targetCount : Nat) :
    Nat → AcquisitionState → AcquisitionState
  | 0, st => st
  | fuel + 1, st =>
    if st.approved.length < targetCount then
      let attempt := st.attempt + 1
      let needed := targetCount - st.approved.length
      let fetchCount := (3 * needed + 1) / 2
      let questions := env.select attempt fetchCount
      let newQuestions := questions.filter (fun q => !(decide (q._id ∈ st.drawnIds)))
      if newQuestions.isEmpty then { st with attempt := attempt }
      else
        let drawnIds := st.drawnIds ++ newQuestions.map (fun q => q._id)
        let qualityInput : List QualityCheckInput := newQuestions.map
          (fun q => { id := q._id, text := q.englishText, options := q.optionsEnglish })
        let qualityResults := env.quality attempt qualityInput
        let approvedIds : List String := (qualityResults.filter (fun r => r.approved)).map
          (fun r => r.id)
        let approvedQuestions := newQuestions.filter
          (fun q => decide (q._id ∈ approvedIds))
        acquisitionLoop env targetCount fuel
          { approved := st.approved ++ approvedQuestions,
            drawnIds := drawnIds, attempt := attempt }
    else st

/-- The loop run from the initial state with the retry budget of 3. -/
def acquisitionRun (env : ExecEnv) (targetCount : Nat) : AcquisitionState :=
  acquisitionLoop env targetCount 3 { approved := [], drawnIds := [], attempt := 0 }

/-- Observable outcome of `executeScheduledQuiz`: the schedule store after
the final status write, the trimmed question list handed to `runQuiz`, and
the number of loop attempts performed. -/
structure ExecOutcome where
  store : List QuizSchedule
  finalQuestions : List AstraQuestion
  attemptsUsed : Nat

/-- `executeScheduledQuiz`: mark `in_progress`, run the acquisition loop,
trim to the target count; an empty result cancels the schedule, otherwise
the quiz is delivered as-is and the schedule is completed on success and
cancelled on failure. -/
def executeScheduledQuiz (env : ExecEnv) (schedule : QuizSchedule)
    (store : List QuizSchedule) : ExecOutcome :=
  let store1 := updateScheduleStatus env.now schedule.id .in_progress store
  let finalState := acquisitionRun env schedule.questionCount
  let finalQuestions := finalState.approved.take schedule.questionCount
  if finalQuestions.isEmpty then
    { store := updateScheduleStatus env.now schedule.id .cancelled store1,
      finalQuestions := finalQuestions, attemptsUsed := finalState.attempt }
  else if env.runQuizSuccess finalQuestions then
    { store := updateScheduleStatus env.now schedule.id .completed store1,
      finalQuestions := finalQuestions, attemptsUsed := finalState.attempt }
  else
    { store := updateScheduleStatus env.now schedule.id .cancelled store1,
      finalQuestions := finalQuestions, attemptsUsed := finalState.attempt }

/-- Environment of a trigger activation: the `ExecEnv` plus the subject and
chapter catalogues, the random draws of `autoGenerateQuiz`
(`Math.floor(Math.random()*len)` is `pickIdx % len`, and the random
`sort` of the chapters is an arbitrary reordering `chapterShuffle`), the
generated schedule id and the configured default question count. -/
structure SchedulerEnv extends ExecEnv where
  subjects : List Subject
  chapters : List Chapter
  pickIdx : Nat
  chapterShuffle : List Chapter → List Chapter
  freshId : String
  defaultQuestionCount : Nat

/-- `autoGenerateQuiz`: with no subjects available it returns without
creating anything; otherwise it creates a `scheduled` entry for a random
subject and up to three of its chapters (`createSchedule` appends to the
store) and immediately executes it. -/
def autoGenerateQuiz (env : SchedulerEnv) (date : String) (time : QuizTime)
    (store : List QuizSchedule) : List QuizSchedule :=
  if env.subjects.isEmpty then store
  else
    let randomSubject := env.subjects.getD (env.pickIdx % env.subjects.length) default
    let subjectChapters := env.chapters.filter
      (fun c => decide (c.subjectId = randomSubject._id))
    let selectedChapters := (env.chapterShuffle subjectChapters).take 3
    let newSchedule : QuizSchedule :=
      { id := env.freshId, date := date, time := time,
        subjectIds := [randomSubject._id],
        chapterIds := selectedChapters.map (fun c => c._id),
        subjectNames := [randomSubject.name],
        chapterNames := selectedChapters.map (fun c => c.name),
        questionCount := env.defaultQuestionCount,
        title := randomSubject.name ++ " - "
          ++ String.intercalate ", " (selectedChapters.map (fun c => c.name)),
        status := .scheduled, createdAt := env.now, completedAt := none }
    (executeScheduledQuiz env.toExecEnv newSchedule (store ++ [newSchedule])).store

/-- `checkAndExecuteQuiz`: execute the looked-up `scheduled` entry for
(date, slot), or fall back to auto-generation when the lookup misses. -/
def checkAndExecuteQuiz (env : SchedulerEnv) (today : String) (time : QuizTime)
    (store : List QuizSchedule) : List QuizSchedule :=
  match getScheduleFor store today time with
  | some schedule => (executeScheduledQuiz env.toExecEnv schedule store).store
  | none => autoGenerateQuiz env today time store

/-- Status of the first stored schedule with the given id. -/
def statusOf (store : List QuizSchedule) (id : String) : Option ScheduleStatus :=
  (store.find? (fun s => decide (s.id = id))).map (fun s => s.status)

/-- Two questions do not share a non-empty dedupe key: whenever the first
carries a truthy key, the second does not carry the same one. -/
def noSharedDedupeKey (a b : AstraQuestion) : Prop :=
  ∀ k, a.dedupeKey = some k → k.isEmpty = false → b.dedupeKey ≠ some k

/-! ## Concrete sample data for counterexamples and witness instances -/

/-- A well-formed verified question used as base for concrete scenarios. -/
def sampleQ : AstraQuestion :=
  { _id := "q0", hindiText := "hq", englishText := "eq",
    optionsHindi := ["ka", "kha", "ga", "gha"],
    optionsEnglish := ["aaa", "bbb", "ccc", "ddd"],
    correctAnswer := "A", explanationHindi := "", explanationEnglish := "",
    difficultyLevel := none, dedupeKey := none,
    subjectId := "sub1", chapterId := "ch1", verified := true }

/-- A stored schedule for 2026-01-01 at the morning slot, two questions. -/
def sampleSchedule : QuizSchedule :=
  { id := "sch1", date := "2026-01-01", time := .h0800,
    subjectIds := ["sub1"], chapterIds := ["ch1"],
    subjectNames := ["Polity"], chapterNames := ["Ch1"],
    questionCount := 2, title := "Polity Quiz", status := .scheduled,
    createdAt := "2025-12-31T12:00:00Z", completedAt := none }

/-- The same schedule already picked up by a running execution. -/
def inProgressSchedule : QuizSchedule := { sampleSchedule with status := .in_progress }

/-- Execution environment in which the first selection attempt yields one
fresh question, later attempts yield nothing, the quality gate approves
everything and delivery succeeds. -/
def sampleExecEnv : ExecEnv :=
  { select := fun attempt _ => if attempt = 1 then [{ sampleQ with _id := "q1" }] else [],
    quality := fun _ inputs =>
      inputs.map (fun i => { id := i.id, approved := true, reason := none }),
    runQuizSuccess := fun _ => true,
    now := "2026-01-01T02:30:00Z" }

/-- Trigger environment over `sampleExecEnv` with one subject available. -/
def sampleSchedulerEnv : SchedulerEnv :=
  { toExecEnv := sampleExecEnv,
    subjects := [{ _id := "sub1", name := "Polity" }],
    chapters := [{ _id := "ch1", name := "Ch1", subjectId := "sub1" }],
    pickIdx := 0, chapterShuffle := id, freshId := "quiz_new",
    defaultQuestionCount := 2 }

/-- A copy of `sampleQ` with the given id, difficulty and dedupe key. -/
def taggedQ (id : String) (d : Option Difficulty) (key : Option String) :
    AstraQuestion :=
  { sampleQ with _id := id, difficultyLevel := d, dedupeKey := key }

/-- Selection environment for the C5 witness: five fetched questions, two
of which share the dedupe key "dup", one recently used record. -/
def dedupeSelectEnv : SelectEnv :=
  { shuffle := id,
    fetched :=
      [taggedQ "a" (some .easy) (some "dup"),
       taggedQ "b" (some .medium) (some "dup"),
       taggedQ "c" (some .medium) none,
       taggedQ "d" (some .hard) (some "k2"),
       taggedQ "e" none none],
    records := [{ questionId := "c", scheduleId := "old", usedAt := 990 }],
    nowMs := 1000 }

/-- Selection environment for the C6 witness: a record inside the 7-day
window excludes question "u1". -/
def recencySelectEnv : SelectEnv :=
  { shuffle := id,
    fetched := [taggedQ "u1" (some .easy) none, taggedQ "u2" (some .medium) none],
    records :=
      [{ questionId := "u1", scheduleId := "old", usedAt := 1000000 },
       { questionId := "u2", scheduleId := "older",
         usedAt := 1000000 - 8 * 86400000 }],
    nowMs := 1000000 }

/-- Selection environment for the C7 witness: 7 easy, 11 medium and 5 hard
distinct verified questions, no recent usage. -/
def bucketSelectEnv : SelectEnv :=
  { shuffle := id,
    fetched :=
      (List.range 7).map (fun i => taggedQ (Nat.repr i ++ "e") (some .easy) none)
      ++ (List.range 11).map (fun i => taggedQ (Nat.repr i ++ "m") (some .medium) none)
      ++ (List.range 5).map (fun i => taggedQ (Nat.repr i ++ "h") (some .hard) none),
    records := [], nowMs := 0 }

/-- Selection environment for the C7 counterexample: 4 easy, 6 medium and
3 hard questions for a request of 9. -/
def bucket9SelectEnv : SelectEnv :=
  { shuffle := id,
    fetched :=
      (List.range 4).map (fun i => taggedQ (Nat.repr i ++ "e") (some .easy) none)
      ++ (List.range 6).map (fun i => taggedQ (Nat.repr i ++ "m") (some .medium) none)
      ++ (List.range 3).map (fun i => taggedQ (Nat.repr i ++ "h") (some .hard) none),
    records := [], nowMs := 0 }

end TgPoster

namespace TgPoster

/-! ## Store-update lemmas -/

theorem updateScheduleStatus_length (now id : String) (st : ScheduleStatus)
    (l : List QuizSchedule) :
    (updateScheduleStatus now id st l).length = l.length := by
  induction l with
  | nil => rfl
  | cons s rest ih =>
    by_cases h : s.id = id <;> simp [updateScheduleStatus, h, ih]

theorem updateScheduleStatus_map_id (now id : String) (st : ScheduleStatus)
    (l : List QuizSchedule) :
    (updateScheduleStatus now id st l).map (fun s => s.id) = l.map (fun s => s.id) := by
  induction l with
  | nil => rfl
  | cons s rest ih =>
    by_cases h : s.id = id <;> simp [updateScheduleStatus, h, ih]

theorem exists_id_updateScheduleStatus (now id : String) (st : ScheduleStatus)
    (l : List QuizSchedule) (id' : String) (h : ∃ s ∈ l, s.id = id') :
    ∃ s ∈ updateScheduleStatus now id st l, s.id = id' := by
  have hm : id' ∈ (updateScheduleStatus now id st l).map (fun s => s.id) := by
    rw [updateScheduleStatus_map_id]
    exact List.mem_map.mpr ⟨h.choose, h.choose_spec.1, h.choose_spec.2⟩
  obtain ⟨s, hs, hid⟩ := List.mem_map.mp hm
  exact ⟨s, hs, hid⟩

theorem statusOf_updateScheduleStatus (now id : String) (st : ScheduleStatus)
    (l : List QuizSchedule) (h : ∃ s ∈ l, s.id = id) :
    statusOf (updateScheduleStatus now id st l) id = some st := by
  induction l with
  | nil => simp at h
  | cons s rest ih =>
    by_cases hs : s.id = id
    · simp [updateScheduleStatus, hs, statusOf, List.find?]
    · obtain ⟨t, ht, hid⟩ := h
      rcases List.mem_cons.mp ht with rfl | htr
      · exact absurd hid hs
      · have := ih ⟨t, htr, hid⟩
        simpa [updateScheduleStatus, hs, statusOf, List.find?] using this

theorem updateScheduleStatus_of_absent (now id : String) (st : ScheduleStatus)
    (l : List QuizSchedule) (h : ∀ s ∈ l, s.id ≠ id) :
    updateScheduleStatus now id st l = l := by
  induction l with
  | nil => rfl
  | cons s rest ih =>
    have hs : ¬s.id = id := h s (List.mem_cons_self s rest)
    simp [updateScheduleStatus, hs, ih (fun t ht => h t (List.mem_cons_of_mem s ht))]

/-! ## executeScheduledQuiz projections -/

theorem executeScheduledQuiz_finalQuestions (env : ExecEnv) (sched : QuizSchedule)
    (store : List QuizSchedule) :
    (executeScheduledQuiz env sched store).finalQuestions
      = (acquisitionRun env sched.questionCount).approved.take sched.questionCount := by
  simp only [executeScheduledQuiz]
  split <;> [rfl; split <;> rfl]

theorem executeScheduledQuiz_attemptsUsed (env : ExecEnv) (sched : QuizSchedule)
    (store : List QuizSchedule) :
    (executeScheduledQuiz env sched store).attemptsUsed
      = (acquisitionRun env sched.questionCount).attempt := by
  simp only [executeScheduledQuiz]
  split <;> [rfl; split <;> rfl]

theorem executeScheduledQuiz_store_length (env : ExecEnv) (sched : QuizSchedule)
    (store : List QuizSchedule) :
    (executeScheduledQuiz env sched store).store.length = store.length := by
  simp only [executeScheduledQuiz]
  split <;> [skip; split] <;>
    simp [updateScheduleStatus_length]

end TgPoster

namespace TgPoster

/-! ## Acquisition-loop lemmas -/

theorem acquisitionLoop_attempt_le (env : ExecEnv) (targetCount : Nat) :
    ∀ (fuel : Nat) (st : AcquisitionState),
      (acquisitionLoop env targetCount fuel st).attempt ≤ st.attempt + fuel := by
  intro fuel
  induction fuel with
  | zero => intro st; simp [acquisitionLoop]
  | succ n ih =>
    intro st
    rw [acquisitionLoop]
    split
    · dsimp only
      split
      · dsimp only; omega
      · refine le_trans (ih _) ?_
        dsimp only
        omega
    · omega

/-- C4: for every target count N ≥ 1 and every behaviour of the selector,
the quality gate and the delivery step, the acquisition loop of
`executeScheduledQuiz` performs at most 3 attempts, the final question
list has length ≤ N, and it has length exactly N whenever at least N
questions were approved. -/
theorem acquisition_attempts_and_truncation (env : ExecEnv) (sched : QuizSchedule)
    (store : List QuizSchedule) (h : 1 ≤ sched.questionCount) :
    (executeScheduledQuiz env sched store).attemptsUsed ≤ 3 ∧
    (executeScheduledQuiz env sched store).finalQuestions.length ≤ sched.questionCount ∧
    (sched.questionCount ≤ (acquisitionRun env sched.questionCount).approved.length →
      (executeScheduledQuiz env sched store).finalQuestions.length = sched.questionCount) := by
  refine ⟨?_, ?_, ?_⟩
  · rw [executeScheduledQuiz_attemptsUsed]
    simpa [acquisitionRun] using acquisitionLoop_attempt_le env sched.questionCount 3
      { approved := [], drawnIds := [], attempt := 0 }
  · rw [executeScheduledQuiz_finalQuestions]
    simpa using List.length_take_le sched.questionCount
      (acquisitionRun env sched.questionCount).approved
  · intro hge
    rw [executeScheduledQuiz_finalQuestions]
    simp [List.length_take]
    omega

/-- C4 witness: a concrete run (target 2, one approved question) uses 2 of
the 3 attempts and is truncated to at most the target count. -/
theorem acquisition_attempts_and_truncation_witness :
    (executeScheduledQuiz sampleExecEnv sampleSchedule [sampleSchedule]).attemptsUsed ≤ 3 ∧
    (executeScheduledQuiz sampleExecEnv sampleSchedule [sampleSchedule]).finalQuestions.length
      ≤ sampleSchedule.questionCount ∧
    (sampleSchedule.questionCount
        ≤ (acquisitionRun sampleExecEnv sampleSchedule.questionCount).approved.length →
      (executeScheduledQuiz sampleExecEnv sampleSchedule [sampleSchedule]).finalQuestions.length
        = sampleSchedule.questionCount) :=
  acquisition_attempts_and_truncation sampleExecEnv sampleSchedule [sampleSchedule] (by decide)

end TgPoster

namespace TgPoster

/-- C2 counterexample: acquisition yields one approved question against a
target of two, delivery succeeds, and the schedule ends `completed` —
refuting the claim that a short non-zero count always ends `cancelled`. -/
theorem short_count_completed_counterexample :
    (executeScheduledQuiz sampleExecEnv sampleSchedule [sampleSchedule]).finalQuestions.length = 1 ∧
    sampleSchedule.questionCount = 2 ∧
    statusOf (executeScheduledQuiz sampleExecEnv sampleSchedule [sampleSchedule]).store
      sampleSchedule.id = some .completed := by
  decide

/-- C2 (amended): a schedule execution ends `cancelled` exactly when
acquisition yields zero questions or delivery fails; a non-zero count
short of the target is delivered as-is and the schedule ends `completed`
whenever delivery succeeds, so a completed session may hold fewer
questions than the schedule's recorded count. -/
theorem executeScheduledQuiz_final_status (env : ExecEnv) (sched : QuizSchedule)
    (store : List QuizSchedule) (h : ∃ s ∈ store, s.id = sched.id) :
    ((executeScheduledQuiz env sched store).finalQuestions = [] →
      statusOf (executeScheduledQuiz env sched store).store sched.id = some .cancelled) ∧
    ((executeScheduledQuiz env sched store).finalQuestions ≠ [] →
      env.runQuizSuccess (executeScheduledQuiz env sched store).finalQuestions = true →
      statusOf (executeScheduledQuiz env sched store).store sched.id = some .completed) ∧
    ((executeScheduledQuiz env sched store).finalQuestions ≠ [] →
      env.runQuizSuccess (executeScheduledQuiz env sched store).finalQuestions = false →
      statusOf (executeScheduledQuiz env sched store).store sched.id = some .cancelled) := by
  have h1 : ∃ s ∈ updateScheduleStatus env.now sched.id .in_progress store, s.id = sched.id :=
    exists_id_updateScheduleStatus env.now sched.id .in_progress store sched.id h
  have hfq := executeScheduledQuiz_finalQuestions env sched store
  simp only [executeScheduledQuiz] at hfq ⊢
  split
  · rename_i hemp
    refine ⟨fun _ => ?_, fun hne _ => ?_, fun hne _ => ?_⟩
    · exact statusOf_updateScheduleStatus env.now sched.id .cancelled _ h1
    · exact absurd (List.isEmpty_iff.mp hemp) hne
    · exact absurd (List.isEmpty_iff.mp hemp) hne
  · split
    · rename_i hemp hrun
      refine ⟨fun heq => ?_, fun _ _ => ?_, fun _ hfalse => ?_⟩
      · exact absurd (List.isEmpty_iff.mpr heq) (by simpa using hemp)
      · exact statusOf_updateScheduleStatus env.now sched.id .completed _ h1
      · rw [hrun] at hfalse; cases hfalse
    · rename_i hemp hrun
      refine ⟨fun _ => ?_, fun _ htrue => ?_, fun _ _ => ?_⟩
      · exact statusOf_updateScheduleStatus env.now sched.id .cancelled _ h1
      · rw [htrue] at hrun; cases hrun rfl
      · exact statusOf_updateScheduleStatus env.now sched.id .cancelled _ h1

/-- C2 witness: the amended statement applied to the concrete run in which
one question is delivered successfully. -/
theorem executeScheduledQuiz_final_status_witness :
    statusOf (executeScheduledQuiz sampleExecEnv sampleSchedule [sampleSchedule]).store
      sampleSchedule.id = some .completed :=
  (executeScheduledQuiz_final_status sampleExecEnv sampleSchedule [sampleSchedule]
    (by decide)).2.1 (by decide) (by decide)

end TgPoster

namespace TgPoster

/-- C3 counterexample: `updateScheduleStatus` happily drags a `completed`
schedule back to `scheduled`, so a status update on a terminal schedule is
neither rejected nor a no-op. -/
theorem terminal_status_overwritten_counterexample :
    ({ sampleSchedule with status := .completed } : QuizSchedule).status = .completed ∧
    statusOf (updateScheduleStatus "2026-01-02T00:00:00Z" "sch1" .scheduled
      [{ sampleSchedule with status := .completed }]) "sch1" = some .scheduled := by
  decide

/-- C3 (amended): `updateScheduleStatus` applies the requested status to
the first stored schedule with the matching id unconditionally — also when
that schedule is in a terminal state — and leaves the store unchanged only
when no schedule has the id; the `scheduled → in_progress → {completed,
cancelled}` discipline is upheld solely by its callers. -/
theorem updateScheduleStatus_unconditional (now id : String) (st : ScheduleStatus)
    (l : List QuizSchedule) :
    ((∃ s ∈ l, s.id = id) → statusOf (updateScheduleStatus now id st l) id = some st) ∧
    ((∀ s ∈ l, s.id ≠ id) → updateScheduleStatus now id st l = l) := by
  exact ⟨statusOf_updateScheduleStatus now id st l,
    updateScheduleStatus_of_absent now id st l⟩

/-- C3 witness: the unconditional update applied to a store holding one
completed schedule, and to a store without the requested id. -/
theorem updateScheduleStatus_unconditional_witness :
    statusOf (updateScheduleStatus "2026-01-02T00:00:00Z" "sch1" .in_progress
      [{ sampleSchedule with status := .cancelled }]) "sch1" = some .in_progress ∧
    updateScheduleStatus "2026-01-02T00:00:00Z" "other" .cancelled [sampleSchedule]
      = [sampleSchedule] :=
  ⟨(updateScheduleStatus_unconditional "2026-01-02T00:00:00Z" "sch1" .in_progress
      [{ sampleSchedule with status := .cancelled }]).1 (by decide),
   (updateScheduleStatus_unconditional "2026-01-02T00:00:00Z" "other" .cancelled
      [sampleSchedule]).2 (by decide)⟩

/-- C1 counterexample: a schedule for (2026-01-01, 08:00) exists with
status `in_progress`, yet the trigger activation auto-generates and stores
a second schedule for the same date and slot. -/
theorem second_schedule_created_counterexample :
    inProgressSchedule.date = "2026-01-01" ∧ inProgressSchedule.time = .h0800 ∧
    (checkAndExecuteQuiz sampleSchedulerEnv "2026-01-01" .h0800 [inProgressSchedule]).countP
      (fun s => decide (s.date = "2026-01-01" ∧ s.time = .h0800)) = 2 := by
  decide

/-- C1 (amended): a trigger activation creates no schedule exactly when
the store already holds a schedule with status `scheduled` for the
(date, slot); an existing entry in any other status does not block the
auto-generation fallback, which (given a non-empty subject list) appends
one new schedule. -/
theorem checkAndExecuteQuiz_creation (env : SchedulerEnv) (today : String)
    (time : QuizTime) (store : List QuizSchedule) :
    ((getScheduleFor store today time).isSome →
      (checkAndExecuteQuiz env today time store).length = store.length) ∧
    (getScheduleFor store today time = none → env.subjects ≠ [] →
      (checkAndExecuteQuiz env today time store).length = store.length + 1) := by
  constructor
  · intro h
    obtain ⟨s, hs⟩ := Option.isSome_iff_exists.mp h
    simp only [checkAndExecuteQuiz, hs]
    exact executeScheduledQuiz_store_length env.toExecEnv s store
  · intro hnone hsub
    simp only [checkAndExecuteQuiz, hnone, autoGenerateQuiz]
    rw [if_neg (by simpa [List.isEmpty_iff] using hsub)]
    rw [executeScheduledQuiz_store_length]
    simp

/-- C1 witness: with a `scheduled` entry present the activation keeps the
store size; with only an `in_progress` entry present it grows it by one. -/
theorem checkAndExecuteQuiz_creation_witness :
    (checkAndExecuteQuiz sampleSchedulerEnv "2026-01-01" .h0800 [sampleSchedule]).length
      = [sampleSchedule].length ∧
    (checkAndExecuteQuiz sampleSchedulerEnv "2026-01-01" .h0800 [inProgressSchedule]).length
      = [inProgressSchedule].length + 1 :=
  ⟨(checkAndExecuteQuiz_creation sampleSchedulerEnv "2026-01-01" .h0800 [sampleSchedule]).1
      (by decide),
   (checkAndExecuteQuiz_creation sampleSchedulerEnv "2026-01-01" .h0800 [inProgressSchedule]).2
      (by decide) (by decide)⟩

end TgPoster

namespace TgPoster

/-! ## jsFindIndex lemmas -/

theorem jsFindIndex_eq_none_iff (p : α → Bool) (l : List α) :
    jsFindIndex p l = none ↔ ∀ a ∈ l, p a = false := by
  induction l with
  | nil => simp [jsFindIndex]
  | cons a t ih =>
    by_cases h : p a <;> simp [jsFindIndex, h, ih]

theorem jsFindIndex_spec (p : α → Bool) (d : α) :
    ∀ (l : List α) (i : Nat), jsFindIndex p l = some i →
      i < l.length ∧ p (l.getD i d) = true ∧ ∀ a ∈ l.take i, p a = false := by
  intro l
  induction l with
  | nil => intro i h; simp [jsFindIndex] at h
  | cons a t ih =>
    intro i h
    by_cases hp : p a
    · simp only [jsFindIndex, hp, if_pos] at h
      obtain rfl : (0 : Nat) = i := Option.some.inj h
      simpa using hp
    · simp only [jsFindIndex, hp, if_neg, Bool.false_eq_true, not_false_iff] at h
      obtain ⟨j, hj, rfl⟩ := Option.map_eq_some'.mp h
      obtain ⟨h1, h2, h3⟩ := ih j hj
      refine ⟨by simpa using Nat.succ_lt_succ h1, by simpa using h2, ?_⟩
      intro x hx
      rcases List.mem_cons.mp (by simpa using hx) with rfl | hxt
      · simpa using hp
      · exact h3 x hxt

/-! ## getCorrectOptionIndex evaluation lemmas -/

theorem getCorrectOptionIndex_single (q : AstraQuestion)
    (h1 : (answerChars q).length = 1) (h2 : 0 ≤ letterIndex q)
    (h3 : letterIndex q < (q.optionsEnglish.length : Int)) :
    getCorrectOptionIndex q = (letterIndex q).toNat := by
  simp [getCorrectOptionIndex, h1, h2, h3]

theorem getCorrectOptionIndex_fallback (q : AstraQuestion)
    (h : ¬((answerChars q).length = 1 ∧ 0 ≤ letterIndex q
        ∧ letterIndex q < (q.optionsEnglish.length : Int))) :
    getCorrectOptionIndex q
      = match jsFindIndex (fun opt => optionMatches q opt) q.optionsEnglish with
        | some i => i
        | none => 0 := by
  by_cases h1 : (answerChars q).length = 1
  · have h2 : ¬(0 ≤ letterIndex q ∧ letterIndex q < (q.optionsEnglish.length : Int)) :=
      fun hc => h ⟨h1, hc⟩
    simp [getCorrectOptionIndex, h1, h2]
  · simp [getCorrectOptionIndex, h1]

/-- C9 counterexample: the designator `"E"` is a single letter whose
`letter − 'A'` value is 4, but with four options the resolver does not
return 4 — it falls through to the substring scan and returns 0. -/
theorem single_letter_not_mapped_counterexample :
    (answerChars { sampleQ with correctAnswer := "E" }).length = 1 ∧
    letterIndex { sampleQ with correctAnswer := "E" } = 4 ∧
    ({ sampleQ with correctAnswer := "E" } : AstraQuestion).optionsEnglish.length = 4 ∧
    getCorrectOptionIndex { sampleQ with correctAnswer := "E" } = 0 ∧
    getCorrectOptionIndex { sampleQ with correctAnswer := "E" } ≠ 4 := by
  decide

/-- C9 (amended): a single-letter designator resolves to `letter − 'A'`
only when that index lies inside the option list; otherwise (multi-char
designator or out-of-range letter) the resolver returns the index of the
first option containing the designator case-insensitively, and 0 when no
option matches. -/
theorem getCorrectOptionIndex_resolution (q : AstraQuestion) :
    ((answerChars q).length = 1 → 0 ≤ letterIndex q →
      letterIndex q < (q.optionsEnglish.length : Int) →
      getCorrectOptionIndex q = (letterIndex q).toNat) ∧
    (¬((answerChars q).length = 1 ∧ 0 ≤ letterIndex q
        ∧ letterIndex q < (q.optionsEnglish.length : Int)) →
      ((∃ opt ∈ q.optionsEnglish, optionMatches q opt = true) →
        getCorrectOptionIndex q < q.optionsEnglish.length ∧
        optionMatches q (q.optionsEnglish.getD (getCorrectOptionIndex q) "") = true ∧
        ∀ opt ∈ q.optionsEnglish.take (getCorrectOptionIndex q),
          optionMatches q opt = false) ∧
      ((∀ opt ∈ q.optionsEnglish, optionMatches q opt = false) →
        getCorrectOptionIndex q = 0))  := by
  refine ⟨fun h1 h2 h3 => getCorrectOptionIndex_single q h1 h2 h3, fun h => ⟨?_, ?_⟩⟩
  · intro hex
    have hfb := getCorrectOptionIndex_fallback q h
    cases hfi : jsFindIndex (fun opt => optionMatches q opt) q.optionsEnglish with
    | none =>
      obtain ⟨opt, hopt, hmatch⟩ := hex
      have := (jsFindIndex_eq_none_iff _ _).mp hfi opt hopt
      rw [this] at hmatch
      cases hmatch
    | some i =>
      rw [hfi] at hfb
      obtain ⟨hlen, hget, hpre⟩ := jsFindIndex_spec (fun opt => optionMatches q opt) "" _ i hfi
      rw [hfb]
      exact ⟨hlen, hget, hpre⟩
  · intro hall
    have hfb := getCorrectOptionIndex_fallback q h
    rw [(jsFindIndex_eq_none_iff _ _).mpr hall] at hfb
    exact hfb

/-- C9 witness: the in-range single-letter branch at the designator `"C"`
with four options. -/
theorem getCorrectOptionIndex_resolution_witness :
    getCorrectOptionIndex { sampleQ with correctAnswer := "C" }
      = (letterIndex { sampleQ with correctAnswer := "C" }).toNat :=
  (getCorrectOptionIndex_resolution { sampleQ with correctAnswer := "C" }).1
    (by decide) (by decide) (by decide)

/-- C10: whenever the English option list is non-empty, the resolved
correct-answer index is a valid position in it, in every branch of the
resolver — so the `correct_option_id` sent with the poll always points at
an existing option. -/
theorem getCorrectOptionIndex_in_bounds (q : AstraQuestion)
    (h : q.optionsEnglish ≠ []) :
    getCorrectOptionIndex q < q.optionsEnglish.length := by
  by_cases hc : (answerChars q).length = 1 ∧ 0 ≤ letterIndex q
      ∧ letterIndex q < (q.optionsEnglish.length : Int)
  · rw [getCorrectOptionIndex_single q hc.1 hc.2.1 hc.2.2]
    omega
  · rw [getCorrectOptionIndex_fallback q hc]
    cases hfi : jsFindIndex (fun opt => optionMatches q opt) q.optionsEnglish with
    | none => simpa using List.length_pos.mpr h
    | some i =>
      exact (jsFindIndex_spec (fun opt => optionMatches q opt) "" _ i hfi).1

/-- C10 witness: the bound at a concrete question with four options. -/
theorem getCorrectOptionIndex_in_bounds_witness :
    getCorrectOptionIndex sampleQ < sampleQ.optionsEnglish.length :=
  getCorrectOptionIndex_in_bounds sampleQ (by decide)

end TgPoster

namespace TgPoster

/-! ## Quality-gate lemmas -/

theorem resultMapGet_mem_id (id : String) :
    ∀ (rs : List QualityCheckResult) (acc : Option QualityCheckResult),
      (∀ a, acc = some a → a.id = id) →
      ∀ r, rs.foldl (fun acc r => if r.id = id then some r else acc) acc = some r →
        r.id = id := by
  intro rs
  induction rs with
  | nil => intro acc hacc r h; exact hacc r h
  | cons x t ih =>
    intro acc hacc r h
    refine ih _ ?_ r h
    intro a ha
    by_cases hx : x.id = id
    · simp only [hx, if_pos] at ha
      rw [← Option.some.inj ha]
      exact hx
    · simp only [hx, if_neg, not_false_iff] at ha
      exact hacc a ha

theorem resultMapGet_id (rs : List QualityCheckResult) (id : String)
    (r : QualityCheckResult) (h : resultMapGet rs id = some r) : r.id = id :=
  resultMapGet_mem_id id rs none (fun a ha => by cases ha) r h

theorem resultMapGet_eq_none (rs : List QualityCheckResult) (id : String)
    (h : ∀ v ∈ rs, v.id ≠ id) : resultMapGet rs id = none := by
  have haux : ∀ (l : List QualityCheckResult), (∀ v ∈ l, v.id ≠ id) →
      l.foldl (fun acc r => if r.id = id then some r else acc) none = none := by
    intro l
    induction l with
    | nil => intro _; rfl
    | cons x t ih =>
      intro hl
      have hx : ¬x.id = id := hl x (List.mem_cons_self x t)
      simpa [List.foldl_cons, hx] using ih (fun v hv => hl v (List.mem_cons_of_mem x hv))
  exact haux rs h

/-- The per-question verdict builder of `checkQuestionQuality` keeps the
input identifier. -/
theorem checkQuality_entry_id (rs : List QualityCheckResult) (q : QualityCheckInput) :
    (match resultMapGet rs q.id with
      | some r => r
      | none => ({ id := q.id, approved := true, reason := none } : QualityCheckResult)).id
      = q.id := by
  cases hm : resultMapGet rs q.id with
  | none => rfl
  | some r => simpa using resultMapGet_id rs q.id r hm

/-- C8: for a non-empty batch the gate returns one verdict per input
question, in order, with the input's identifier; a question whose id is
absent from the oracle's verdicts is approved, and a failed or unparseable
oracle response approves the whole batch. -/
theorem checkQuestionQuality_fail_open (qs : List QualityCheckInput)
    (resp : OracleResponse) (h : qs ≠ []) :
    ((checkQuestionQuality qs resp).map (fun r => r.id) = qs.map (fun q => q.id)) ∧
    (∀ q ∈ qs, (∀ v ∈ oracleVerdicts resp, v.id ≠ q.id) →
      ∀ r ∈ checkQuestionQuality qs resp, r.id = q.id → r.approved = true) ∧
    (resp = .failed → ∀ r ∈ checkQuestionQuality qs resp, r.approved = true) ∧
    (resp = .unparseable → ∀ r ∈ checkQuestionQuality qs resp, r.approved = true) := by
  have hne : qs.isEmpty = false := by simpa [List.isEmpty_iff] using h
  cases resp with
  | failed =>
    refine ⟨?_, ?_, ?_, ?_⟩
    · simp [checkQuestionQuality, hne, List.map_map, Function.comp]
    · intro q _ _ r hr _
      simp only [checkQuestionQuality, hne, Bool.false_eq_true, if_neg,
        not_false_iff] at hr
      obtain ⟨q', _, rfl⟩ := List.mem_map.mp hr
      rfl
    · intro _ r hr
      simp only [checkQuestionQuality, hne, Bool.false_eq_true, if_neg,
        not_false_iff] at hr
      obtain ⟨q', _, rfl⟩ := List.mem_map.mp hr
      rfl
    · intro hcontra; cases hcontra
  | unparseable =>
    have hout : checkQuestionQuality qs .unparseable
        = qs.map (fun q => { id := q.id, approved := true, reason := none }) := by
      simp [checkQuestionQuality, hne, oracleVerdicts, resultMapGet]
    refine ⟨?_, ?_, ?_, ?_⟩
    · simp [hout, List.map_map, Function.comp]
    · intro q _ _ r hr _
      obtain ⟨q', _, rfl⟩ := List.mem_map.mp (hout ▸ hr)
      rfl
    · intro hcontra; cases hcontra
    · intro _ r hr
      obtain ⟨q', _, rfl⟩ := List.mem_map.mp (hout ▸ hr)
      rfl
  | parsed rs =>
    have hout : checkQuestionQuality qs (.parsed rs)
        = qs.map (fun q =>
            match resultMapGet rs q.id with
            | some r => r
            | none => { id := q.id, approved := true, reason := none }) := by
      simp [checkQuestionQuality, hne, oracleVerdicts]
    refine ⟨?_, ?_, ?_, ?_⟩
    · rw [hout, List.map_map]
      exact List.map_congr_left (fun q _ => checkQuality_entry_id rs q)
    · intro q _ hmiss r hr hid
      obtain ⟨q', hq', rfl⟩ := List.mem_map.mp (hout ▸ hr)
      have hq'id : _ = q'.id := checkQuality_entry_id rs q'
      have hnone : resultMapGet rs q'.id = none := by
        refine resultMapGet_eq_none rs q'.id ?_
        intro v hv
        rw [show q'.id = q.id from hq'id ▸ hid]
        exact hmiss v hv
      simp [hnone]
    · intro hcontra; cases hcontra
    · intro hcontra; cases hcontra

/-- C8 witness: a two-question batch against a parsed response that only
rejects the second question. -/
theorem checkQuestionQuality_fail_open_witness :
    (checkQuestionQuality
        [{ id := "a", text := "t1", options := ["o1"] },
         { id := "b", text := "t2", options := ["o2"] }]
        (.parsed [{ id := "b", approved := false, reason := some "dup" }])).map
        (fun r => r.id)
      = ([{ id := "a", text := "t1", options := ["o1"] },
          { id := "b", text := "t2", options := ["o2"] }] :
          List QualityCheckInput).map (fun q => q.id) :=
  (checkQuestionQuality_fail_open
    [{ id := "a", text := "t1", options := ["o1"] },
     { id := "b", text := "t2", options := ["o2"] }]
    (.parsed [{ id := "b", approved := false, reason := some "dup" }]) (by decide)).1

end TgPoster

namespace TgPoster

/-! ## Dedupe-filter lemmas -/

theorem noSharedDedupeKey_symm {a b : AstraQuestion}
    (h : noSharedDedupeKey a b) : noSharedDedupeKey b a := by
  intro k hb hke ha
  exact h k ha hke hb

theorem dedupeByKey_sublist : ∀ (l : List AstraQuestion) (seen : List String),
    (dedupeByKey l seen).Sublist l := by
  intro l
  induction l with
  | nil => intro seen; simp [dedupeByKey]
  | cons q rest ih =>
    intro seen
    rw [dedupeByKey]
    cases hk : q.dedupeKey with
    | none => exact (ih seen).cons₂ q
    | some k =>
      by_cases hke : k.isEmpty
      · simp only [hke, if_pos]
        exact (ih seen).cons₂ q
      · by_cases hseen : seen.contains k
        · simp only [hke, hseen, if_neg, if_pos, Bool.false_eq_true, not_false_iff]
          exact (ih seen).cons q
        · simp only [hke, hseen, if_neg, Bool.false_eq_true, not_false_iff]
          exact (ih (k :: seen)).cons₂ q

theorem dedupeByKey_key_not_seen :
    ∀ (l : List AstraQuestion) (seen : List String) (q : AstraQuestion),
      q ∈ dedupeByKey l seen → ∀ k, q.dedupeKey = some k → k.isEmpty = false →
        seen.contains k = false := by
  intro l
  induction l with
  | nil => intro seen q hq; simp [dedupeByKey] at hq
  | cons p rest ih =>
    intro seen q hq k hqk hke
    rw [dedupeByKey] at hq
    cases hp : p.dedupeKey with
    | none =>
      rw [hp] at hq
      rcases List.mem_cons.mp hq with rfl | hqr
      · rw [hp] at hqk; cases hqk
      · exact ih seen q hqr k hqk hke
    | some kp =>
      rw [hp] at hq
      by_cases hpe : kp.isEmpty
      · simp only [hpe, if_pos] at hq
        rcases List.mem_cons.mp hq with rfl | hqr
        · rw [hp] at hqk
          obtain rfl := Option.some.inj hqk
          rw [hpe] at hke; cases hke
        · exact ih seen q hqr k hqk hke
      · by_cases hseen : seen.contains kp
        · simp only [hpe, hseen, if_neg, if_pos, Bool.false_eq_true, not_false_iff] at hq
          exact ih seen q hq k hqk hke
        · simp only [hpe, hseen, if_neg, Bool.false_eq_true, not_false_iff] at hq
          rcases List.mem_cons.mp hq with rfl | hqr
          · rw [hp] at hqk
            obtain rfl := Option.some.inj hqk
            simpa using hseen
          · have hks := ih (kp :: seen) q hqr k hqk hke
            simp only [List.contains_cons, Bool.or_eq_false_iff] at hks
            exact hks.2

theorem dedupeByKey_pairwise : ∀ (l : List AstraQuestion) (seen : List String),
    (dedupeByKey l seen).Pairwise noSharedDedupeKey := by
  intro l
  induction l with
  | nil => intro seen; simp [dedupeByKey]
  | cons p rest ih =>
    intro seen
    rw [dedupeByKey]
    cases hp : p.dedupeKey with
    | none =>
      refine List.Pairwise.cons ?_ (ih seen)
      intro b _ k hpk
      rw [hp] at hpk; cases hpk
    | some kp =>
      by_cases hpe : kp.isEmpty
      · simp only [hpe, if_pos]
        refine List.Pairwise.cons ?_ (ih seen)
        intro b _ k hpk hke
        rw [hp] at hpk
        obtain rfl := Option.some.inj hpk
        rw [hpe] at hke; cases hke
      · by_cases hseen : seen.contains kp
        · simp only [hpe, hseen, if_neg, if_pos, Bool.false_eq_true, not_false_iff]
          exact ih seen
        · simp only [hpe, hseen, if_neg, Bool.false_eq_true, not_false_iff]
          refine List.Pairwise.cons ?_ (ih (kp :: seen))
          intro b hb k hpk hke hbk
          rw [hp] at hpk
          obtain rfl := Option.some.inj hpk
          have := dedupeByKey_key_not_seen rest (kp :: seen) b hb kp hbk hke
          simp at this

theorem dedupeByKey_first :
    ∀ (l : List AstraQuestion) (seen : List String) (q : AstraQuestion) (k : String),
      q ∈ dedupeByKey l seen → q.dedupeKey = some k → k.isEmpty = false →
        l.find? (fun p => decide (p.dedupeKey = some k)) = some q := by
  intro l
  induction l with
  | nil => intro seen q k hq; simp [dedupeByKey] at hq
  | cons p rest ih =>
    intro seen q k hq hqk hke
    rw [dedupeByKey] at hq
    by_cases hpk : p.dedupeKey = some k
    · rw [List.find?_cons_of_pos _ (by simpa using hpk)]
      rw [hpk] at hq
      by_cases hkem : k.isEmpty
      · rw [hkem] at hke; cases hke
      · by_cases hseen : seen.contains k
        · simp only [hkem, hseen, if_neg, if_pos, Bool.false_eq_true, not_false_iff] at hq
          have := dedupeByKey_key_not_seen rest seen q hq k hqk hke
          rw [this] at hseen; cases hseen
        · simp only [hkem, hseen, if_neg, Bool.false_eq_true, not_false_iff] at hq
          rcases List.mem_cons.mp hq with rfl | hqr
          · rfl
          · have := dedupeByKey_key_not_seen rest (k :: seen) q hqr k hqk hke
            simp at this
    · rw [List.find?_cons_of_neg _ (by simpa using hpk)]
      cases hp : p.dedupeKey with
      | none =>
        rw [hp] at hq
        rcases List.mem_cons.mp hq with rfl | hqr
        · rw [hp] at hqk; cases hqk
        · exact ih seen q k hqr hqk hke
      | some kp =>
        rw [hp] at hq
        by_cases hpe : kp.isEmpty
        · simp only [hpe, if_pos] at hq
          rcases List.mem_cons.mp hq with rfl | hqr
          · rw [hp] at hqk; exact absurd (hp.trans hqk) hpk
          · exact ih seen q k hqr hqk hke
        · by_cases hseen : seen.contains kp
          · simp only [hpe, hseen, if_neg, if_pos, Bool.false_eq_true,
              not_false_iff] at hq
            exact ih seen q k hq hqk hke
          · simp only [hpe, hseen, if_neg, Bool.false_eq_true, not_false_iff] at hq
            rcases List.mem_cons.mp hq with rfl | hqr
            · exact absurd hqk hpk
            · exact ih (kp :: seen) q k hqr hqk hke

end TgPoster

namespace TgPoster

/-! ## Slice and count lemmas -/

theorem jsSliceTo_sublist (l : List α) (e : Int) : (jsSliceTo l e).Sublist l := by
  unfold jsSliceTo
  split <;> exact List.take_sublist _ _

theorem length_jsSliceTo_le (l : List α) (e : Int) (h : 0 ≤ e) :
    (jsSliceTo l e).length ≤ e.toNat := by
  simp only [jsSliceTo, h, if_pos, List.length_take]
  omega

theorem length_jsSliceTo_eq (l : List α) (e : Int) (h : 0 ≤ e)
    (hl : e.toNat ≤ l.length) : (jsSliceTo l e).length = e.toNat := by
  simp only [jsSliceTo, h, if_pos, List.length_take]
  omega

theorem count_shuffle_slice_le {shuffle : List AstraQuestion → List AstraQuestion}
    (hs : ∀ l, (shuffle l).Perm l) (sub : List AstraQuestion) (e : Int)
    (x : AstraQuestion) :
    (jsSliceTo (shuffle sub) e).count x ≤ sub.count x :=
  le_trans ((jsSliceTo_sublist (shuffle sub) e).count_le x)
    (le_of_eq ((hs sub).count_eq x))

theorem count_filter_zero (x : AstraQuestion) (l : List AstraQuestion)
    (p : AstraQuestion → Bool) (hp : p x = false) : (l.filter p).count x = 0 := by
  rw [List.count_eq_zero]
  intro hx
  rw [(List.mem_filter.mp hx).2] at hp
  cases hp

theorem count_buckets_le (x : AstraQuestion) (l : List AstraQuestion) :
    (unknownOf l).count x + (easyOf l).count x + (mediumOf l).count x
      + (hardOf l).count x ≤ l.count x := by
  have hle : ∀ (p : AstraQuestion → Bool), (l.filter p).count x ≤ l.count x :=
    fun p => (List.filter_sublist l).count_le x
  rcases hd : x.difficultyLevel with _ | ⟨_ | _ | _⟩
  · have h1 : (easyOf l).count x = 0 := count_filter_zero x l _ (by simp [hd])
    have h2 : (mediumOf l).count x = 0 := count_filter_zero x l _ (by simp [hd])
    have h3 : (hardOf l).count x = 0 := count_filter_zero x l _ (by simp [hd])
    have h4 := hle (fun q => decide (q.difficultyLevel = none))
    simp only [easyOf, mediumOf, hardOf, unknownOf] at *
    omega
  · have h1 : (unknownOf l).count x = 0 := count_filter_zero x l _ (by simp [hd])
    have h2 : (mediumOf l).count x = 0 := count_filter_zero x l _ (by simp [hd])
    have h3 : (hardOf l).count x = 0 := count_filter_zero x l _ (by simp [hd])
    have h4 := hle (fun q => decide (q.difficultyLevel = some .easy))
    simp only [easyOf, mediumOf, hardOf, unknownOf] at *
    omega
  · have h1 : (unknownOf l).count x = 0 := count_filter_zero x l _ (by simp [hd])
    have h2 : (easyOf l).count x = 0 := count_filter_zero x l _ (by simp [hd])
    have h3 : (hardOf l).count x = 0 := count_filter_zero x l _ (by simp [hd])
    have h4 := hle (fun q => decide (q.difficultyLevel = some .medium))
    simp only [easyOf, mediumOf, hardOf, unknownOf] at *
    omega
  · have h1 : (unknownOf l).count x = 0 := count_filter_zero x l _ (by simp [hd])
    have h2 : (easyOf l).count x = 0 := count_filter_zero x l _ (by simp [hd])
    have h3 : (mediumOf l).count x = 0 := count_filter_zero x l _ (by simp [hd])
    have h4 := hle (fun q => decide (q.difficultyLevel = some .hard))
    simp only [easyOf, mediumOf, hardOf, unknownOf] at *
    omega

theorem sel_count_le {shuffle : List AstraQuestion → List AstraQuestion}
    (hs : ∀ l, (shuffle l).Perm l) (l : List AstraQuestion) (e m h : Int)
    (x : AstraQuestion) :
    (jsSliceTo (shuffle (easyOf l)) e ++ jsSliceTo (shuffle (mediumOf l)) m
      ++ jsSliceTo (shuffle (hardOf l)) h).count x
      ≤ (easyOf l).count x + (mediumOf l).count x + (hardOf l).count x := by
  have h1 := count_shuffle_slice_le hs (easyOf l) e x
  have h2 := count_shuffle_slice_le hs (mediumOf l) m x
  have h3 := count_shuffle_slice_le hs (hardOf l) h x
  simp only [List.count_append]
  omega

end TgPoster

namespace TgPoster

/-- Core counting argument: a selection drawn from the difficulty buckets
plus a backfill that avoids already-selected identifiers is a
sub-permutation of the original pool. -/
theorem sel_back_subperm (l sel back : List AstraQuestion)
    (hsel : ∀ x, sel.count x
      ≤ (easyOf l).count x + (mediumOf l).count x + (hardOf l).count x)
    (hback_mem : ∀ x ∈ back, x._id ∉ sel.map (fun q => q._id))
    (hback_count : ∀ x, back.count x ≤ (unknownOf l).count x + (easyOf l).count x
      + (mediumOf l).count x + (hardOf l).count x) :
    (sel ++ back).Subperm l := by
  rw [List.subperm_ext_iff]
  intro x _
  rw [List.count_append]
  by_cases hxb : x ∈ back
  · have hsel0 : sel.count x = 0 := by
      rw [List.count_eq_zero]
      intro hxs
      exact hback_mem x hxb (List.mem_map_of_mem _ hxs)
    have h1 := hback_count x
    have h2 := count_buckets_le x l
    omega
  · have h0 : back.count x = 0 := List.count_eq_zero.mpr hxb
    have h1 := hsel x
    have h2 := count_buckets_le x l
    omega

/-- The output of `selectByDifficultyRatio` is a sub-permutation of its
input pool, for every shuffle that permutes and every ratio. -/
theorem sdr_subperm {shuffle : List AstraQuestion → List AstraQuestion}
    (hs : ∀ l, (shuffle l).Perm l) (l : List AstraQuestion) (count : Nat)
    (ratio : DifficultyMix) :
    (selectByDifficultyRatio shuffle l count ratio).Subperm l := by
  simp only [selectByDifficultyRatio]
  split
  · refine List.Subperm.trans (hs _).subperm ?_
    refine sel_back_subperm l _ _ (sel_count_le hs l _ _ _) ?_ ?_
    · intro x hx
      have hx2 := ((hs _).mem_iff).mp ((jsSliceTo_sublist _ _).subset hx)
      have := (List.mem_filter.mp hx2).2
      simpa using this
    · intro x
      refine le_trans (count_shuffle_slice_le hs _ _ x) ?_
      refine le_trans ((List.filter_sublist _).count_le x) ?_
      simp only [List.count_append]
      omega
  · refine List.Subperm.trans (hs _).subperm ?_
    rw [List.subperm_ext_iff]
    intro x _
    refine le_trans (sel_count_le hs l _ _ _ x) ?_
    have := count_buckets_le x l
    omega

end TgPoster

namespace TgPoster

/-! ## Rounding arithmetic for the default difficulty mix -/

theorem round_nat_mul_div (c : ℕ) (a : ℤ) (d : ℕ) (hd : 0 < d) :
    round ((c : ℚ) * ((a : ℚ) / ((d : ℕ) : ℚ))) = (2 * a * c + d) / (2 * (d : ℤ)) := by
  rw [round_eq]
  have hdq : ((d : ℕ) : ℚ) ≠ 0 := by
    exact_mod_cast Nat.pos_iff_ne_zero.mp hd
  have key : (c : ℚ) * ((a : ℚ) / ((d : ℕ) : ℚ)) + 1/2
      = ((2 * a * c + d : ℤ) : ℚ) / (((2 * d : ℕ) : ℕ) : ℚ) := by
    field_simp
    ring
  rw [key, Rat.floor_intCast_div_natCast]
  congr 1

theorem round_default_easy (c : ℕ) :
    round ((c : ℚ) * defaultMix.EASY) = (6 * (c : ℤ) + 10) / 20 := by
  have h : defaultMix.EASY = ((3 : ℤ) : ℚ) / ((10 : ℕ) : ℚ) := by
    norm_num [defaultMix]
  rw [h, round_nat_mul_div c 3 10 (by norm_num)]
  norm_num

theorem round_default_medium (c : ℕ) :
    round ((c : ℚ) * defaultMix.MEDIUM) = (2 * (c : ℤ) + 2) / 4 := by
  have h : defaultMix.MEDIUM = ((1 : ℤ) : ℚ) / ((2 : ℕ) : ℚ) := by
    norm_num [defaultMix]
  rw [h, round_nat_mul_div c 1 2 (by norm_num)]
  norm_num

theorem round_default_hard (c : ℕ) :
    round ((c : ℚ) * defaultMix.HARD) = (2 * (c : ℤ) + 5) / 10 := by
  have h : defaultMix.HARD = ((1 : ℤ) : ℚ) / ((5 : ℕ) : ℚ) := by
    norm_num [defaultMix]
  rw [h, round_nat_mul_div c 1 5 (by norm_num)]
  norm_num

/-- With the default mix, the EASY and MEDIUM targets are non-negative and
leave a non-negative HARD remainder. -/
theorem default_counts_bounds (c : ℕ) :
    0 ≤ round ((c : ℚ) * defaultMix.EASY) ∧
    0 ≤ round ((c : ℚ) * defaultMix.MEDIUM) ∧
    round ((c : ℚ) * defaultMix.EASY) + round ((c : ℚ) * defaultMix.MEDIUM) ≤ (c : ℤ) := by
  rw [round_default_easy, round_default_medium]
  omega

end TgPoster

namespace TgPoster

/-- Pure length bookkeeping for the bucket selection with backfill. -/
theorem sdr_length_core (c : Nat) (eT mT hT bT : List AstraQuestion) (e m : ℤ)
    (he0 : 0 ≤ e) (hm0 : 0 ≤ m) (hem : e + m ≤ (c : ℤ))
    (hE : eT.length ≤ e.toNat) (hM : mT.length ≤ m.toNat)
    (hH : hT.length ≤ ((c : ℤ) - e - m).toNat)
    (hB : bT.length ≤ ((c : ℤ) - (((eT ++ mT ++ hT).length : ℕ) : ℤ)).toNat) :
    ((eT ++ mT ++ hT) ++ bT).length ≤ c := by
  simp only [List.length_append] at *
  omega

/-- Pure length bookkeeping for the bucket selection without backfill. -/
theorem sdr_length_core_nofill (c : Nat) (eT mT hT : List AstraQuestion) (e m : ℤ)
    (he0 : 0 ≤ e) (hm0 : 0 ≤ m) (hem : e + m ≤ (c : ℤ))
    (hE : eT.length ≤ e.toNat) (hM : mT.length ≤ m.toNat)
    (hH : hT.length ≤ ((c : ℤ) - e - m).toNat) :
    (eT ++ mT ++ hT).length ≤ c := by
  simp only [List.length_append] at *
  omega

/-- With the default difficulty mix the selector never returns more than
the requested count. -/
theorem sdr_length_le_default {shuffle : List AstraQuestion → List AstraQuestion}
    (hs : ∀ l, (shuffle l).Perm l) (l : List AstraQuestion) (c : Nat) :
    (selectByDifficultyRatio shuffle l c defaultMix).length ≤ c := by
  have he0 : (0 : ℤ) ≤ (6 * (c : ℤ) + 10) / 20 := by omega
  have hm0 : (0 : ℤ) ≤ (2 * (c : ℤ) + 2) / 4 := by omega
  have hem : (6 * (c : ℤ) + 10) / 20 + (2 * (c : ℤ) + 2) / 4 ≤ (c : ℤ) := by omega
  simp only [selectByDifficultyRatio]
  rw [round_default_easy c, round_default_medium c]
  split
  · rename_i hrem
    rw [(hs _).length_eq]
    refine sdr_length_core c _ _ _ _ ((6 * (c : ℤ) + 10) / 20) ((2 * (c : ℤ) + 2) / 4)
      he0 hm0 hem (length_jsSliceTo_le _ _ he0) (length_jsSliceTo_le _ _ hm0)
      (length_jsSliceTo_le _ _ (by omega)) (length_jsSliceTo_le _ _ (le_of_lt hrem))
  · rw [(hs _).length_eq]
    exact sdr_length_core_nofill c _ _ _ ((6 * (c : ℤ) + 10) / 20) ((2 * (c : ℤ) + 2) / 4)
      he0 hm0 hem (length_jsSliceTo_le _ _ he0) (length_jsSliceTo_le _ _ hm0)
      (length_jsSliceTo_le _ _ (by omega))

end TgPoster

namespace TgPoster

/-- Everything the selector returns comes from the filtered pool. -/
theorem selectQuestions_subset (env : SelectEnv) (count : Nat)
    (ratio : DifficultyMix) (days : Nat) (hs : ∀ l, (env.shuffle l).Perm l) :
    ∀ q ∈ selectQuestions env count ratio days, q ∈ filteredPool env days := by
  intro q hq
  simp only [selectQuestions] at hq
  by_cases hlt : (filteredPool env days).length < count
  · rw [if_pos hlt] at hq
    exact ((hs _).mem_iff).mp hq
  · rw [if_neg hlt] at hq
    exact (sdr_subperm hs _ count ratio).subset hq

/-- C6: no returned question's identifier appears in a used-question
record whose timestamp lies inside the exclusion window of `days` days
before the call. -/
theorem selectQuestions_excludes_recent (env : SelectEnv) (count : Nat)
    (ratio : DifficultyMix) (days : Nat) (hs : ∀ l, (env.shuffle l).Perm l) :
    ∀ q ∈ selectQuestions env count ratio days, ∀ r ∈ env.records,
      r.questionId = q._id → r.usedAt ≤ env.nowMs - (days : Int) * dayMs := by
  intro q hq r hr hid
  have h1 : q ∈ filteredPool env days :=
    selectQuestions_subset env count ratio days hs q hq
  have h2 : q ∈ afterRecencyFilter env days := by
    simp only [filteredPool] at h1
    exact (dedupeByKey_sublist _ _).subset h1
  simp only [afterRecencyFilter] at h2
  have h3 := (List.mem_filter.mp h2).2
  by_contra hgt
  push_neg at hgt
  have hmem : q._id ∈ getRecentlyUsedQuestionIds env.records env.nowMs days := by
    simp only [getRecentlyUsedQuestionIds]
    refine List.mem_map.mpr ⟨r, ?_, hid⟩
    exact List.mem_filter.mpr ⟨hr, by simpa using hgt⟩
  simp [hmem] at h3

/-- C6 witness: in the concrete environment the returned question "u2"
only matches the record outside the 7-day window. -/
theorem selectQuestions_excludes_recent_witness :
    ({ questionId := "u2", scheduleId := "older",
        usedAt := 1000000 - 8 * 86400000 } : UsedQuestionRecord).usedAt
      ≤ recencySelectEnv.nowMs - ((7 : Nat) : Int) * dayMs :=
  selectQuestions_excludes_recent recencySelectEnv 2 defaultMix 7
    (fun l => List.Perm.refl l) (taggedQ "u2" (some .medium) none) (by decide)
    { questionId := "u2", scheduleId := "older", usedAt := 1000000 - 8 * 86400000 }
    (by decide) (by decide)

/-- C5: for every selection request (all of which use the default
difficulty mix), the returned list never exceeds the requested count, no
two returned questions share a non-empty dedupe key, and a returned
question with a non-empty key is the first question carrying that key in
the fetched order that survived the recency filter. -/
theorem selectQuestions_length_and_dedupe (env : SelectEnv) (count days : Nat)
    (hs : ∀ l, (env.shuffle l).Perm l) :
    (selectQuestions env count defaultMix days).length ≤ count ∧
    (selectQuestions env count defaultMix days).Pairwise noSharedDedupeKey ∧
    (∀ q ∈ selectQuestions env count defaultMix days, ∀ k, q.dedupeKey = some k →
      k.isEmpty = false →
      (afterRecencyFilter env days).find? (fun p => decide (p.dedupeKey = some k))
        = some q) := by
  have hpair : (filteredPool env days).Pairwise noSharedDedupeKey :=
    dedupeByKey_pairwise (afterRecencyFilter env days) []
  refine ⟨?_, ?_, ?_⟩
  · simp only [selectQuestions]
    split
    · rename_i hlt
      rw [(hs _).length_eq]
      omega
    · exact sdr_length_le_default hs _ count
  · simp only [selectQuestions]
    split
    · exact (List.Perm.pairwise_iff (fun hab => noSharedDedupeKey_symm hab)
        (hs _)).mpr hpair
    · obtain ⟨l', hp, hsl⟩ := sdr_subperm hs (filteredPool env days) count defaultMix
      exact (List.Perm.pairwise_iff (fun hab => noSharedDedupeKey_symm hab) hp).mp
        (List.Pairwise.sublist hsl hpair)
  · intro q hq k hk hke
    have h1 : q ∈ filteredPool env days :=
      selectQuestions_subset env count defaultMix days hs q hq
    exact dedupeByKey_first (afterRecencyFilter env days) [] q k
      (by simpa [filteredPool] using h1) hk hke

/-- C5 witness: the concrete five-question environment with a duplicated
dedupe key and one recently used question, requested count 2. -/
theorem selectQuestions_length_and_dedupe_witness :
    (selectQuestions dedupeSelectEnv 2 defaultMix 7).length ≤ 2 ∧
    (selectQuestions dedupeSelectEnv 2 defaultMix 7).Pairwise noSharedDedupeKey ∧
    (∀ q ∈ selectQuestions dedupeSelectEnv 2 defaultMix 7, ∀ k,
      q.dedupeKey = some k → k.isEmpty = false →
      (afterRecencyFilter dedupeSelectEnv 7).find?
        (fun p => decide (p.dedupeKey = some k)) = some q) :=
  selectQuestions_length_and_dedupe dedupeSelectEnv 2 7 (fun l => List.Perm.refl l)

end TgPoster

namespace TgPoster

/-- Exact bucket counts of `selectByDifficultyRatio` when every bucket can
serve its target: `round(N·EASY)` easy, `round(N·MEDIUM)` medium and the
remainder `N − easy − medium` hard questions, with no backfill. -/
theorem sdr_exact_counts {shuffle : List AstraQuestion → List AstraQuestion}
    (hs : ∀ l, (shuffle l).Perm l) (l : List AstraQuestion) (c : Nat)
    (ratio : DifficultyMix) (e m : ℤ)
    (hre : round ((c : ℚ) * ratio.EASY) = e) (hrm : round ((c : ℚ) * ratio.MEDIUM) = m)
    (he0 : 0 ≤ e) (hm0 : 0 ≤ m) (hh0 : 0 ≤ (c : ℤ) - e - m)
    (hE : e.toNat ≤ (easyOf l).length) (hM : m.toNat ≤ (mediumOf l).length)
    (hH : ((c : ℤ) - e - m).toNat ≤ (hardOf l).length) :
    (selectByDifficultyRatio shuffle l c ratio).countP
        (fun q => decide (q.difficultyLevel = some .easy)) = e.toNat ∧
    (selectByDifficultyRatio shuffle l c ratio).countP
        (fun q => decide (q.difficultyLevel = some .medium)) = m.toNat ∧
    (selectByDifficultyRatio shuffle l c ratio).countP
        (fun q => decide (q.difficultyLevel = some .hard)) = ((c : ℤ) - e - m).toNat ∧
    (selectByDifficultyRatio shuffle l c ratio).length = c := by
  have hlE : (jsSliceTo (shuffle (easyOf l)) e).length = e.toNat :=
    length_jsSliceTo_eq _ _ he0 (by rw [(hs _).length_eq]; exact hE)
  have hlM : (jsSliceTo (shuffle (mediumOf l)) m).length = m.toNat :=
    length_jsSliceTo_eq _ _ hm0 (by rw [(hs _).length_eq]; exact hM)
  have hlH : (jsSliceTo (shuffle (hardOf l)) ((c : ℤ) - e - m)).length
      = ((c : ℤ) - e - m).toNat :=
    length_jsSliceTo_eq _ _ hh0 (by rw [(hs _).length_eq]; exact hH)
  have memE : ∀ a ∈ jsSliceTo (shuffle (easyOf l)) e,
      a.difficultyLevel = some .easy := by
    intro a ha
    have h2 := ((hs _).mem_iff).mp ((jsSliceTo_sublist _ _).subset ha)
    simpa [easyOf] using (List.mem_filter.mp h2).2
  have memM : ∀ a ∈ jsSliceTo (shuffle (mediumOf l)) m,
      a.difficultyLevel = some .medium := by
    intro a ha
    have h2 := ((hs _).mem_iff).mp ((jsSliceTo_sublist _ _).subset ha)
    simpa [mediumOf] using (List.mem_filter.mp h2).2
  have memH : ∀ a ∈ jsSliceTo (shuffle (hardOf l)) ((c : ℤ) - e - m),
      a.difficultyLevel = some .hard := by
    intro a ha
    have h2 := ((hs _).mem_iff).mp ((jsSliceTo_sublist _ _).subset ha)
    simpa [hardOf] using (List.mem_filter.mp h2).2
  have hsel : (jsSliceTo (shuffle (easyOf l)) e ++ jsSliceTo (shuffle (mediumOf l)) m
      ++ jsSliceTo (shuffle (hardOf l)) ((c : ℤ) - e - m)).length = c := by
    simp only [List.length_append, hlE, hlM, hlH]
    omega
  simp only [selectByDifficultyRatio]
  rw [hre, hrm]
  rw [if_neg (by rw [hsel]; omega)]
  refine ⟨?_, ?_, ?_, ?_⟩
  · rw [List.Perm.countP_eq _ (hs _), List.countP_append, List.countP_append]
    have h1 := List.countP_eq_length.mpr
      (fun a ha => by simp [memE a ha] :
        ∀ a ∈ jsSliceTo (shuffle (easyOf l)) e,
          (fun q => decide (q.difficultyLevel = some .easy)) a = true)
    have h2 := List.countP_eq_zero.mpr
      (fun a ha => by simp [memM a ha] :
        ∀ a ∈ jsSliceTo (shuffle (mediumOf l)) m,
          ¬(fun q => decide (q.difficultyLevel = some .easy)) a = true)
    have h3 := List.countP_eq_zero.mpr
      (fun a ha => by simp [memH a ha] :
        ∀ a ∈ jsSliceTo (shuffle (hardOf l)) ((c : ℤ) - e - m),
          ¬(fun q => decide (q.difficultyLevel = some .easy)) a = true)
    rw [h1, h2, h3, hlE]
    omega
  · rw [List.Perm.countP_eq _ (hs _), List.countP_append, List.countP_append]
    have h1 := List.countP_eq_zero.mpr
      (fun a ha => by simp [memE a ha] :
        ∀ a ∈ jsSliceTo (shuffle (easyOf l)) e,
          ¬(fun q => decide (q.difficultyLevel = some .medium)) a = true)
    have h2 := List.countP_eq_length.mpr
      (fun a ha => by simp [memM a ha] :
        ∀ a ∈ jsSliceTo (shuffle (mediumOf l)) m,
          (fun q => decide (q.difficultyLevel = some .medium)) a = true)
    have h3 := List.countP_eq_zero.mpr
      (fun a ha => by simp [memH a ha] :
        ∀ a ∈ jsSliceTo (shuffle (hardOf l)) ((c : ℤ) - e - m),
          ¬(fun q => decide (q.difficultyLevel = some .medium)) a = true)
    rw [h1, h2, h3, hlM]
    omega
  · rw [List.Perm.countP_eq _ (hs _), List.countP_append, List.countP_append]
    have h1 := List.countP_eq_zero.mpr
      (fun a ha => by simp [memE a ha] :
        ∀ a ∈ jsSliceTo (shuffle (easyOf l)) e,
          ¬(fun q => decide (q.difficultyLevel = some .hard)) a = true)
    have h2 := List.countP_eq_zero.mpr
      (fun a ha => by simp [memM a ha] :
        ∀ a ∈ jsSliceTo (shuffle (mediumOf l)) m,
          ¬(fun q => decide (q.difficultyLevel = some .hard)) a = true)
    have h3 := List.countP_eq_length.mpr
      (fun a ha => by simp [memH a ha] :
        ∀ a ∈ jsSliceTo (shuffle (hardOf l)) ((c : ℤ) - e - m),
          (fun q => decide (q.difficultyLevel = some .hard)) a = true)
    rw [h1, h2, h3, hlH]
    omega
  · rw [(hs _).length_eq]
    exact hsel

end TgPoster

namespace TgPoster

/-- C7 (amended): when the filtered pool holds at least N questions, the
selector takes `round(N×EASY)` and `round(N×MEDIUM)` questions from the
EASY and MEDIUM buckets but the *remainder* `N − round(N×EASY) −
round(N×MEDIUM)` — not `round(N×HARD)` — from the HARD bucket, whenever
every bucket can serve its target; the output then has exactly N
questions. -/
theorem selectQuestions_bucket_counts (env : SelectEnv) (count days : Nat)
    (ratio : DifficultyMix) (hs : ∀ l, (env.shuffle l).Perm l)
    (hpool : count ≤ (filteredPool env days).length)
    (he0 : 0 ≤ round ((count : ℚ) * ratio.EASY))
    (hm0 : 0 ≤ round ((count : ℚ) * ratio.MEDIUM))
    (hh0 : 0 ≤ (count : ℤ) - round ((count : ℚ) * ratio.EASY)
      - round ((count : ℚ) * ratio.MEDIUM))
    (hE : (round ((count : ℚ) * ratio.EASY)).toNat
      ≤ (easyOf (filteredPool env days)).length)
    (hM : (round ((count : ℚ) * ratio.MEDIUM)).toNat
      ≤ (mediumOf (filteredPool env days)).length)
    (hH : ((count : ℤ) - round ((count : ℚ) * ratio.EASY)
        - round ((count : ℚ) * ratio.MEDIUM)).toNat
      ≤ (hardOf (filteredPool env days)).length) :
    (selectQuestions env count ratio days).countP
        (fun q => decide (q.difficultyLevel = some .easy))
      = (round ((count : ℚ) * ratio.EASY)).toNat ∧
    (selectQuestions env count ratio days).countP
        (fun q => decide (q.difficultyLevel = some .medium))
      = (round ((count : ℚ) * ratio.MEDIUM)).toNat ∧
    (selectQuestions env count ratio days).countP
        (fun q => decide (q.difficultyLevel = some .hard))
      = ((count : ℤ) - round ((count : ℚ) * ratio.EASY)
        - round ((count : ℚ) * ratio.MEDIUM)).toNat ∧
    (selectQuestions env count ratio days).length = count := by
  simp only [selectQuestions]
  rw [if_neg (by omega)]
  exact sdr_exact_counts hs (filteredPool env days) count ratio _ _ rfl rfl
    he0 hm0 hh0 hE hM hH

theorem round20_easy : round (((20 : ℕ) : ℚ) * defaultMix.EASY) = 6 := by
  rw [round_default_easy]
  decide

theorem round20_medium : round (((20 : ℕ) : ℚ) * defaultMix.MEDIUM) = 10 := by
  rw [round_default_medium]
  decide

theorem round9_easy : round (((9 : ℕ) : ℚ) * defaultMix.EASY) = 3 := by
  rw [round_default_easy]
  decide

theorem round9_medium : round (((9 : ℕ) : ℚ) * defaultMix.MEDIUM) = 5 := by
  rw [round_default_medium]
  decide

theorem round9_hard : round (((9 : ℕ) : ℚ) * defaultMix.HARD) = 2 := by
  rw [round_default_hard]
  decide

/-- C7 witness: the default-mix scenario — 20 requested from big enough
buckets yields exactly 6 EASY, 10 MEDIUM and 4 HARD questions. -/
theorem selectQuestions_bucket_counts_witness :
    (selectQuestions bucketSelectEnv 20 defaultMix 7).countP
        (fun q => decide (q.difficultyLevel = some .easy)) = 6 ∧
    (selectQuestions bucketSelectEnv 20 defaultMix 7).countP
        (fun q => decide (q.difficultyLevel = some .medium)) = 10 ∧
    (selectQuestions bucketSelectEnv 20 defaultMix 7).countP
        (fun q => decide (q.difficultyLevel = some .hard)) = 4 ∧
    (selectQuestions bucketSelectEnv 20 defaultMix 7).length = 20 := by
  have h := selectQuestions_bucket_counts bucketSelectEnv 20 7 defaultMix
    (fun l => List.Perm.refl l)
    (by decide)
    (by simp only [round20_easy]; decide)
    (by simp only [round20_medium]; decide)
    (by simp only [round20_easy, round20_medium]; decide)
    (by simp only [round20_easy]; decide)
    (by simp only [round20_medium]; decide)
    (by simp only [round20_easy, round20_medium]; decide)
  simpa only [round20_easy, round20_medium] using h

/-- C7 counterexample: for a request of 9 with the default mix and a HARD
bucket that could serve `round(9×0.2) = 2` questions, the selector takes
only `9 − round(2.7) − round(4.5) = 1` HARD question. -/
theorem hard_bucket_rounding_counterexample :
    9 ≤ (filteredPool bucket9SelectEnv 7).length ∧
    (round (((9 : ℕ) : ℚ) * defaultMix.HARD)).toNat
      ≤ (hardOf (filteredPool bucket9SelectEnv 7)).length ∧
    (selectQuestions bucket9SelectEnv 9 defaultMix 7).countP
        (fun q => decide (q.difficultyLevel = some .hard)) = 1 ∧
    (round (((9 : ℕ) : ℚ) * defaultMix.HARD)).toNat = 2 := by
  refine ⟨by decide, ?_, ?_, ?_⟩
  · simp only [round9_hard]
    decide
  · simp only [selectQuestions, selectByDifficultyRatio, round9_easy, round9_medium]
    decide
  · simp only [round9_hard]
    decide

end TgPoster
